import Mathlib

/-!
A shallow embedding of the over9000::cmd_line_args command-line parser
(the header generation with `ParamType`, `addFlag`, `addPositional` and
`EnumConverter::getValidValues`).

Command-line tokens, long names and rendered messages are lists of
characters (`Str`).  Caller-owned storage referenced by a parameter is a
tagged cell: one scalar value or a vector of values.  Stream-based
converters are modelled by total functions that return the value written
to storage together with the `!stream.fail() && stream.eof()` check that
`Parser::parseArg` performs afterwards.
-/

abbrev Str := List Char

/-- A value held in caller-owned storage (`std::basic_string`, integral
types, `bool` flags, enum targets are carried as `int`). -/
inductive Value
  | str (s : Str)
  | int (i : Int)
  | bool (b : Bool)
deriving DecidableEq, Repr

instance : Inhabited Value := ⟨Value.str []⟩

/-- Caller-owned storage referenced by one parameter: a scalar slot
(`T& value`) or a vector (`std::vector<T>& value`). -/
inductive Cell
  | scalar (v : Value)
  | vec (vs : List Value)
deriving DecidableEq, Repr

instance : Inhabited Cell := ⟨Cell.scalar default⟩

/-- Lexicographic order on character lists by code point, mirroring
`std::string`'s `operator<` used by `std::map<std::string, T>`. -/
def strLt : Str → Str → Bool
  | _, [] => false
  | [], _ :: _ => true
  | a :: as, b :: bs =>
      if a.toNat < b.toNat then true
      else if b.toNat < a.toNat then false
      else strLt as bs

/-- Ordered insertion into an association list sorted by `strLt`,
mirroring `std::map` insertion: an already-present key keeps its first
mapped value. -/
def mapInsert (k : Str) (v : Int) : List (Str × Int) → List (Str × Int)
  | [] => [(k, v)]
  | kv :: rest =>
      if strLt k kv.1 then (k, v) :: kv :: rest
      else if strLt kv.1 k then kv :: mapInsert k v rest
      else kv :: rest

/-- A `std::map<std::string, T>` built from an initializer list, as in
`EnumConverter{{...}}`. -/
def mapOfList (l : List (Str × Int)) : List (Str × Int) :=
  l.foldl (fun m kv => mapInsert kv.1 kv.2 m) []

/-- `values.find(string)` on the modelled map. -/
def assocLookup (m : List (Str × Int)) (k : Str) : Option Int :=
  (m.find? (fun kv => decide (kv.1 = k))).map (fun kv => kv.2)

/-- `std::getline` reading one token: the extracted text, and whether the
stream ends up not failed and at eof (an empty token sets the failbit; an
embedded newline leaves the stream before eof, which `parseArg` treats as
an error). -/
def getlineModel (cs : Str) : Str × Bool :=
  (cs.takeWhile (fun c => c != '\n'), !cs.isEmpty && !cs.contains '\n')

/-- Decimal value of a digit run. -/
def digitsVal (ds : Str) : Nat :=
  ds.foldl (fun a c => a * 10 + (c.toNat - 48)) 0

/-- Digit extraction after the optional sign of `stream >> value` for an
integral type: `none` means no digit was extracted (failbit; C++11 then
writes 0); the second component is the unconsumed rest of the token. -/
def readIntDigits (cs : Str) (neg : Bool) : Option Int × Str :=
  let ds := cs.takeWhile Char.isDigit
  let rest := cs.dropWhile Char.isDigit
  if ds.isEmpty then (none, rest)
  else (some (if neg then -(digitsVal ds : Int) else (digitsVal ds : Int)), rest)

/-- `stream >> value` for an integral type: skip leading whitespace, an
optional sign, then decimal digits. -/
def readInt (cs : Str) : Option Int × Str :=
  let t := cs.dropWhile Char.isWhitespace
  match t with
  | '-' :: r => readIntDigits r true
  | '+' :: r => readIntDigits r false
  | _ => readIntDigits t false

/-- A converter strategy: `Converter<std::basic_string<Char>>`,
`Converter<T>` for integral `T`, the same for `bool` flag storage, and
`EnumConverter<T>` with its value map. -/
inductive Conv
  | strC
  | intC
  | boolC
  | enumC (values : List (Str × Int))
deriving DecidableEq, Repr

/-- The freshly created `T value` a list parameter converts into; for the
stream-extraction converters this also coincides with the value C++11
writes on an extraction failure. -/
def defaultValue : Conv → Value
  | Conv.strC => Value.str []
  | Conv.intC => Value.int 0
  | Conv.boolC => Value.bool false
  | Conv.enumC _ => Value.int 0

/-- Run a converter on one token against the currently stored value.
Returns the value left in storage and whether the
`!stream.fail() && stream.eof()` check in `Parser::parseArg` passes. -/
def runConv : Conv → Str → Value → Value × Bool
  | Conv.strC, cs, _ =>
      let r := getlineModel cs
      (Value.str r.1, r.2)
  | Conv.intC, cs, _ =>
      match readInt cs with
      | (none, _) => (Value.int 0, false)
      | (some n, rest) => (Value.int n, rest.isEmpty)
  | Conv.boolC, cs, _ =>
      match readInt cs with
      | (none, _) => (Value.bool false, false)
      | (some n, rest) =>
          if n = 0 then (Value.bool false, rest.isEmpty)
          else if n = 1 then (Value.bool true, rest.isEmpty)
          else (Value.bool true, false)
  | Conv.enumC m, cs, old =>
      let r := getlineModel cs
      match assocLookup m r.1 with
      | some v => (Value.int v, r.2)
      | none => (old, false)

/-- Keys of an enum map joined with ", " in map (sorted) order, as in
`EnumConverter::getValidValues`. -/
def joinComma : List Str → Str
  | [] => []
  | [k] => k
  | k :: ks => k ++ (", ".toList) ++ joinComma ks

/-- `Param::getValidValues`: empty for plain converters, the joined key
set for the enum converter. -/
def getValidValues : Conv → Str
  | Conv.enumC m => joinComma (m.map (fun kv => kv.1))
  | _ => []

/-- A registered parameter descriptor (`details::Param` and the static
data of `ParamImpl`): identity, ordering index (`0` for named parameters,
the pre-push size of the positional list for positional ones), the
Required/Optional kind, the flag bit, scalar-versus-list arity and the
conversion strategy. -/
structure Param where
  longName : Str
  shortName : Option Char
  help : Str
  index : Nat
  optional : Bool
  flag : Bool
  isList : Bool
  conv : Conv
deriving DecidableEq, Repr

instance : Inhabited Param :=
  ⟨⟨[], none, [], 0, false, false, false, Conv.strC⟩⟩

/-- The per-invocation state of one parameter: the transient `parsed_`
flag plus the caller-owned storage cell the descriptor references. -/
structure PState where
  parsed : Bool
  cell : Cell
deriving DecidableEq, Repr

instance : Inhabited PState := ⟨⟨false, default⟩⟩

/-- `ParamImpl<T>::parse` / `ParamImpl<std::vector<T>>::parse`: convert
the token into storage.  A list clears leftover values on its first touch
of the invocation, then appends the freshly converted element; a scalar
overwrites in place.  `parsed_` is set in every case; the returned flag is
the stream check `Parser::parseArg` performs afterwards. -/
def Param.parse (p : Param) (s : PState) (arg : Str) : PState × Bool :=
  if p.isList then
    let old := match s.cell with
      | Cell.vec vs => if s.parsed then vs else []
      | Cell.scalar _ => []
    let r := runConv p.conv arg (defaultValue p.conv)
    (⟨true, Cell.vec (old ++ [r.1])⟩, r.2)
  else
    let old := match s.cell with
      | Cell.scalar v => v
      | Cell.vec _ => defaultValue p.conv
    let r := runConv p.conv arg old
    (⟨true, Cell.scalar r.1⟩, r.2)

/-- The parameter registry held by `Parser`: named descriptors in
registration order and positional descriptors in positional order.  The
long-name and short-name indexes are derived by lookup over
`namedParams`, which the registration-time uniqueness checks make
equivalent to the source's maps. -/
structure Registry where
  namedParams : List Param
  positionalParams : List Param
deriving DecidableEq, Repr

/-- The matching engine's state: per-parameter states parallel to the
registry's two descriptor lists, the positional cursor
(`currentPositionalPos`) and the option awaiting its value
(`currentNamedParam`, kept as an index into `namedParams`). -/
structure ParseState where
  named : List PState
  pos : List PState
  cursor : Nat
  awaiting : Option Nat
deriving DecidableEq, Repr

/-- `paramsByShortName_.find(c)`. -/
def findShortIdx (reg : Registry) (c : Char) : Option Nat :=
  reg.namedParams.findIdx? (fun p => decide (p.shortName = some c))

/-- `paramsByLongName_.find(name)`. -/
def findLongIdx (reg : Registry) (nm : Str) : Option Nat :=
  reg.namedParams.findIdx? (fun p => decide (p.longName = nm))

def nthNamed (reg : Registry) (i : Nat) : Param := reg.namedParams.getD i default

def nthPos (reg : Registry) (i : Nat) : Param := reg.positionalParams.getD i default

def nthNamedState (st : ParseState) (i : Nat) : PState := st.named.getD i default

def nthPosState (st : ParseState) (i : Nat) : PState := st.pos.getD i default

/-- The distinct `throw Error()` sites of a matching invocation, with the
data each one streams into its message. -/
inductive PError
  | badArg (p : Param) (arg : Str)
  | unexpectedArg (arg : Str)
  | missingArg (p : Param)
  | missingPositional (p : Param)
deriving DecidableEq, Repr

/-- `operator<<(ostream, const Param&)`: positional parameters (nonzero
`index_`) render as `#i `, named ones with a short name as `-s/`, then
`--longName` in every case. -/
def renderParam (p : Param) : Str :=
  (if p.index ≠ 0 then ("#".toList) ++ Nat.toDigits 10 p.index ++ (" ".toList)
   else match p.shortName with
     | some c => [ '-', c, '/']
     | none => []) ++ ("--".toList) ++ p.longName

/-- The message each throw site builds by streaming fragments. -/
def render : PError → Str
  | PError.badArg p arg =>
      let vv := getValidValues p.conv
      let suffix := if vv.isEmpty then [] else (". Valid values: ".toList) ++ vv
      (if p.index ≠ 0 then ("Bad positional argument ".toList)
       else ("Bad argument ".toList))
        ++ renderParam p ++ (": ".toList) ++ arg ++ suffix
  | PError.unexpectedArg arg => ("Unexpected argument: ".toList) ++ arg
  | PError.missingArg p => ("Missing argument: ".toList) ++ renderParam p
  | PError.missingPositional p =>
      ("Missing positional argument ".toList) ++ renderParam p

/-- `Parser::parseArg` on the named parameter at index `i`: run its
`parse`, then throw `Bad argument`/`Bad positional argument` if the
stream check fails.  The storage update stays in place either way. -/
def applyNamed (reg : Registry) (st : ParseState) (i : Nat) (arg : Str) :
    ParseState × Option PError :=
  let p := nthNamed reg i
  let r := Param.parse p (nthNamedState st i) arg
  ({ st with named := st.named.set i r.1 },
   if r.2 then none else some (PError.badArg p arg))

/-- The positional fallback at the bottom of the scan loop: past the last
positional slot the token is an `Unexpected argument`; otherwise it is fed
to the positional parameter at the cursor, which advances only for
non-list parameters and only on success. -/
def positionalStep (reg : Registry) (st : ParseState) (arg : Str) :
    ParseState × Option PError :=
  if reg.positionalParams.length ≤ st.cursor then
    (st, some (PError.unexpectedArg arg))
  else
    let p := nthPos reg st.cursor
    let r := Param.parse p (nthPosState st st.cursor) arg
    let st1 := { st with pos := st.pos.set st.cursor r.1 }
    if r.2 then
      ({ st1 with cursor := if p.isList then st1.cursor else st1.cursor + 1 }, none)
    else (st1, some (PError.badArg p arg))

/-- The `-s[ value]` block: fires only for two-character tokens starting
with a dash whose second character resolves to a named parameter that is
not an already-parsed scalar; `none` reproduces the C++ fall-through to
the later blocks. -/
def shortDispatch (reg : Registry) (st : ParseState) (arg : Str) :
    Option (ParseState × Option PError) :=
  match arg with
  | [a, c] =>
      if a = '-' then
        match findShortIdx reg c with
        | some i =>
            if (nthNamedState st i).parsed = false ∨ (nthNamed reg i).isList = true then
              if (nthNamed reg i).flag then some (applyNamed reg st i ("1".toList))
              else some ({ st with awaiting := some i }, none)
            else none
        | none => none
  else none
  | _ => none

/-- The body of the `--long-opt` block after the two dashes have been
stripped: split at the first `=` if present, resolve by long name, and
dispatch exactly when the C++ code `continue`s. -/
def longDispatchCore (reg : Registry) (st : ParseState) (rest : Str) :
    Option (ParseState × Option PError) :=
  if rest.contains '=' then
    let nm := rest.takeWhile (fun ch => ch != '=')
    let value := (rest.dropWhile (fun ch => ch != '=')).tail
    match findLongIdx reg nm with
    | some i =>
        if (nthNamedState st i).parsed = false ∨ (nthNamed reg i).isList = true then
          some (applyNamed reg st i value)
        else none
    | none => none
  else
    match findLongIdx reg rest with
    | some i =>
        if (nthNamedState st i).parsed = false ∨ (nthNamed reg i).isList = true then
          if (nthNamed reg i).flag then some (applyNamed reg st i ("1".toList))
          else some ({ st with awaiting := some i }, none)
        else none
    | none => none

/-- The `--long-opt[=value| value]` block: fires only for tokens of
length at least three whose first two characters are dashes. -/
def longDispatch (reg : Registry) (st : ParseState) (arg : Str) :
    Option (ParseState × Option PError) :=
  match arg with
  | a :: b :: c :: rest =>
      if a = '-' ∧ b = '-' then longDispatchCore reg st (c :: rest)
      else none
  | _ => none

/-- One iteration of the scan loop of `Parser::parse`: a pending option
consumes the token wholesale as its value; otherwise the short-option
block, the long-option block and the positional fallback are tried in
that order, each later block reached exactly when the earlier one falls
through. -/
def step (reg : Registry) (st : ParseState) (arg : Str) :
    ParseState × Option PError :=
  match st.awaiting with
  | some i => applyNamed reg { st with awaiting := none } i arg
  | none =>
      match shortDispatch reg st arg with
      | some r => r
      | none =>
          match longDispatch reg st arg with
          | some r => r
          | none => positionalStep reg st arg

/-- The scan loop over the whole token sequence, stopping at the first
thrown error and returning the state reached so far with it. -/
def runTokens (reg : Registry) : ParseState → List Str → ParseState × Option PError
  | st, [] => (st, none)
  | st, t :: ts =>
      match step reg st t with
      | (st1, none) => runTokens reg st1 ts
      | (st1, e) => (st1, e)

/-- The first descriptor in a list that is required but was not matched
this invocation. -/
def firstMissing : List Param → List PState → Option Param
  | p :: ps, s :: ss =>
      if s.parsed = false ∧ p.optional = false then some p
      else firstMissing ps ss
  | _, _ => none

/-- The end-of-scan completeness checks: named parameters first, then
positional ones. -/
def checkMissing (reg : Registry) (st : ParseState) : Option PError :=
  match firstMissing reg.namedParams st.named with
  | some p => some (PError.missingArg p)
  | none =>
      match firstMissing reg.positionalParams st.pos with
      | some p => some (PError.missingPositional p)
      | none => none

/-- The state at the top of `Parser::parse`: every `parsed_` flag is
reset while bound cells keep whatever a previous invocation left. -/
def resetStates (ss : List PState) : List PState :=
  ss.map (fun s => ⟨false, s.cell⟩)

def startState (prior : ParseState) : ParseState :=
  ⟨resetStates prior.named, resetStates prior.pos, 0, none⟩

/-- `Parser::parse` on the tokens after `argv[0]`: reset the transient
flags, scan, then run the completeness checks.  Returns the final state
together with the first error thrown (`none` on success). -/
def parse (reg : Registry) (prior : ParseState) (toks : List Str) :
    ParseState × Option PError :=
  match runTokens reg (startState prior) toks with
  | (st, some e) => (st, some e)
  | (st, none) => (st, checkMissing reg st)

/-- The registration-time failures of `Parser::addPositional`. -/
inductive RegError
  | positionalAfterOptional
  | positionalAfterList
deriving DecidableEq, Repr

/-- `Parser::addPositional`: the new descriptor records the pre-push size
of the positional list as its index and is rejected when the
currently-last positional descriptor is optional or a list. -/
def addPositionalList (ps : List Param) (p : Param) : Except RegError (List Param) :=
  let q := { p with index := ps.length }
  match ps.getLast? with
  | none => Except.ok (ps ++ [q])
  | some lastp =>
      if lastp.optional then Except.error RegError.positionalAfterOptional
      else if lastp.isList then Except.error RegError.positionalAfterList
      else Except.ok (ps ++ [q])

/-- Whether a registration call threw. -/
def regFails (r : Except RegError (List Param)) : Bool :=
  match r with
  | Except.ok _ => false
  | Except.error _ => true

/-- Positional-descriptor sequences producible by successive successful
`addPositional` calls (a throwing call registers nothing). -/
inductive PosReachable : List Param → Prop
  | base : PosReachable []
  | add (ps : List Param) (p : Param) (ps1 : List Param) :
      PosReachable ps → addPositionalList ps p = Except.ok ps1 → PosReachable ps1

/-- Two successive `addPositional` calls starting from an empty registry,
the second applied only if the first succeeded. -/
def addPos2 (p1 p2 : Param) : Except RegError (List Param) :=
  match addPositionalList [] p1 with
  | Except.ok ps => addPositionalList ps p2
  | Except.error e => Except.error e

/-- Whether the first list starts the second one. -/
def leadsWith : Str → Str → Bool
  | [], _ => true
  | _ :: _, [] => false
  | a :: as, b :: bs => a == b && leadsWith as bs

/-- Whether `needle` occurs as a contiguous substring of `hay`. -/
def strHasSub (hay needle : Str) : Bool :=
  match hay with
  | [] => needle.isEmpty
  | _ :: t => leadsWith needle hay || strHasSub t needle

/-- The values accumulated in a vector cell. -/
def cellList : Cell → List Value
  | Cell.vec vs => vs
  | Cell.scalar _ => []

/-! Concrete registries and scenarios used by the claims. -/

/-- Required text named parameter `name` with short name `n`. -/
def nameParam : Param :=
  ⟨"name".toList, some 'n', "Name".toList, 0, false, false, false, Conv.strC⟩

/-- Optional flag `force` with short name `f` (flags are registered
Optional by `addFlag`). -/
def forceParam : Param :=
  ⟨"force".toList, some 'f', "Force".toList, 0, true, true, false, Conv.boolC⟩

/-- Required positional text parameter `file`; `addPositional` records
the pre-push size of the positional list, which is zero here. -/
def fileParam : Param :=
  ⟨"file".toList, none, "File".toList, 0, false, false, false, Conv.strC⟩

def regAB : Registry := ⟨[nameParam, forceParam], [fileParam]⟩

/-- Freshly declared caller storage for `regAB`. -/
def zeroAB : ParseState :=
  ⟨[⟨false, Cell.scalar (Value.str [])⟩, ⟨false, Cell.scalar (Value.bool false)⟩],
   [⟨false, Cell.scalar (Value.str [])⟩], 0, none⟩

def regNameOnly : Registry := ⟨[nameParam], []⟩

def zeroNameOnly : ParseState := ⟨[⟨false, Cell.scalar (Value.str [])⟩], [], 0, none⟩

/-- Optional text named parameter `opt`. -/
def optTextParam : Param :=
  ⟨"opt".toList, none, "Opt".toList, 0, true, false, false, Conv.strC⟩

def regOptOnly : Registry := ⟨[optTextParam], []⟩

def zeroOptOnly : ParseState := ⟨[⟨false, Cell.scalar (Value.str [])⟩], [], 0, none⟩

/-- A registry with the single required positional `file` and no named
parameters. -/
def posOnlyReg : Registry := ⟨[], [fileParam]⟩

def posOnlyZero : ParseState := ⟨[], [⟨false, Cell.scalar (Value.str [])⟩], 0, none⟩

def levelMap : List (Str × Int) := mapOfList [("low".toList, 0), ("high".toList, 1)]

/-- Required enumerated named parameter `level` mapped low→0, high→1. -/
def levelParam : Param :=
  ⟨"level".toList, none, "Level".toList, 0, false, false, false, Conv.enumC levelMap⟩

def regLevel : Registry := ⟨[levelParam], []⟩

def zeroLevel : ParseState := ⟨[⟨false, Cell.scalar (Value.int 0)⟩], [], 0, none⟩

/-- Optional integer list named parameter `nums`. -/
def numsParam : Param :=
  ⟨"nums".toList, none, "Nums".toList, 0, true, false, true, Conv.intC⟩

def regNums : Registry := ⟨[numsParam], []⟩

/-- Storage for `nums` holding a leftover element from an earlier
invocation. -/
def priorNums : ParseState := ⟨[⟨false, Cell.vec [Value.int 7]⟩], [], 0, none⟩

/-- Required integer named parameter `num`. -/
def numParam : Param :=
  ⟨"num".toList, none, "Num".toList, 0, false, false, false, Conv.intC⟩

def regC9 : Registry := ⟨[nameParam, numParam], []⟩

def zeroC9 : ParseState :=
  ⟨[⟨false, Cell.scalar (Value.str [])⟩, ⟨false, Cell.scalar (Value.int 0)⟩], [], 0, none⟩

def toksPre : List Str := ["--name".toList, "Alice".toList]

def toksSuf : List Str := ["--num".toList, "xyz".toList]

/-- Optional text list named parameter `strs`. -/
def strsParam : Param :=
  ⟨"strs".toList, none, "Strs".toList, 0, true, false, true, Conv.strC⟩

def regLists : Registry := ⟨[numsParam, strsParam], []⟩

def zeroLists : ParseState :=
  ⟨[⟨false, Cell.vec []⟩, ⟨false, Cell.vec []⟩], [], 0, none⟩

def toksLists1 : List Str :=
  ["--nums".toList, "1".toList, "--nums".toList, "2".toList, "--strs".toList, "x".toList]

def toksLists2 : List Str := ["--nums".toList, "7".toList]

/-- Required scalar positional. -/
def posReq : Param :=
  ⟨"preq".toList, none, "Preq".toList, 0, false, false, false, Conv.strC⟩

/-- Optional scalar positional. -/
def posOpt : Param :=
  ⟨"popt".toList, none, "Popt".toList, 0, true, false, false, Conv.strC⟩

/-- Required positional list. -/
def posList : Param :=
  ⟨"plist".toList, none, "Plist".toList, 0, false, false, true, Conv.strC⟩

/-- Plain scalar positional (same shape as `posReq`, second name). -/
def posScalar : Param :=
  ⟨"pscal".toList, none, "Pscal".toList, 0, false, false, false, Conv.strC⟩

/-- State of `regNameOnly` after `name` has already been matched this
invocation. -/
def stNameParsed : ParseState :=
  ⟨[⟨true, Cell.scalar (Value.str ("A".toList))⟩], [], 0, none⟩

/-- The state `regOptOnly` reaches when the token sequence ends right
after `--opt`: the scan is still awaiting a value for parameter 0. -/
def stDangling : ParseState :=
  ⟨[⟨false, Cell.scalar (Value.str [])⟩], [], 0, some 0⟩

/-- State of `regC9` after the successful prefix `--name Alice`. -/
def c9MidState : ParseState :=
  ⟨[⟨true, Cell.scalar (Value.str ("Alice".toList))⟩,
    ⟨false, Cell.scalar (Value.int 0)⟩], [], 0, none⟩

/-- State of `regC9` when the suffix `--num xyz` then fails conversion:
the `name` binding from the prefix is still in place. -/
def c9FinalState : ParseState :=
  ⟨[⟨true, Cell.scalar (Value.str ("Alice".toList))⟩,
    ⟨true, Cell.scalar (Value.int 0)⟩], [], 0, none⟩

/-! Helper lemmas. -/

theorem takeWhile_neq_append (nm value : Str) (h : nm.contains '=' = false) :
    (nm ++ '=' :: value).takeWhile (fun ch => ch != '=') = nm := by
  induction nm with
  | nil => simp [List.takeWhile]
  | cons m ms ih =>
      simp only [List.contains_cons, Bool.or_eq_false_iff] at h
      simp only [List.cons_append, List.takeWhile_cons]
      rw [if_pos]
      · rw [ih h.2]
      · simp [bne]
        intro hmeq
        rw [hmeq] at h
        simp at h

theorem takeWhile_no_newline (cs : Str) (h : cs.contains '\n' = false) :
    cs.takeWhile (fun c => c != '\n') = cs := by
  induction cs with
  | nil => rfl
  | cons a as ih =>
      simp only [List.contains_cons, Bool.or_eq_false_iff] at h
      simp only [List.takeWhile_cons]
      rw [if_pos]
      · rw [ih h.2]
      · simp [bne]
        intro he
        rw [he] at h
        simp at h

theorem getD_set_cases {α : Type} (l : List α) (j : Nat) (a : α) (i : Nat) (d : α) :
    (l.set j a).getD i d = l.getD i d ∨ (l.set j a).getD i d = a := by
  induction l generalizing i j with
  | nil => left; rfl
  | cons x xs ih =>
      cases j with
      | zero =>
          cases i with
          | zero => right; rfl
          | succ i1 => left; rfl
      | succ j1 =>
          cases i with
          | zero => left; rfl
          | succ i1 =>
              simp only [List.set_cons_succ, List.getD_cons_succ]
              exact ih j1 i1

theorem parse_sets_parsed (p : Param) (s : PState) (arg : Str) :
    (Param.parse p s arg).1.parsed = true := by
  cases hl : p.isList <;> simp [Param.parse, hl]

theorem applyNamed_noTouch (reg : Registry) (st0 : ParseState) (j : Nat) (arg : Str) (i : Nat)
    (hp : (nthNamedState (applyNamed reg st0 j arg).1 i).parsed = false) :
    nthNamedState (applyNamed reg st0 j arg).1 i = nthNamedState st0 i := by
  rcases getD_set_cases st0.named j
      (Param.parse (nthNamed reg j) (nthNamedState st0 j) arg).1 i default with hc | hc
  · exact hc
  · exfalso
    have hps := parse_sets_parsed (nthNamed reg j) (nthNamedState st0 j) arg
    have hpt : (nthNamedState (applyNamed reg st0 j arg).1 i).parsed = true := by
      show ((st0.named.set j _).getD i default).parsed = true
      rw [hc]; exact hps
    rw [hpt] at hp
    exact Bool.noConfusion hp

theorem shortDispatch_spec (reg : Registry) (st : ParseState) (arg : Str)
    (r : ParseState × Option PError) (h : shortDispatch reg st arg = some r) :
    (∃ i a, r = applyNamed reg st i a) ∨
    (∃ i, r = ({ st with awaiting := some i }, none)) := by
  unfold shortDispatch at h
  repeat' split at h
  all_goals simp_all
  · exact Or.inl ⟨_, _, h.symm⟩
  · exact Or.inr ⟨_, h.symm⟩

theorem longDispatchCore_spec (reg : Registry) (st : ParseState) (rest : Str)
    (r : ParseState × Option PError) (h : longDispatchCore reg st rest = some r) :
    (∃ i a, r = applyNamed reg st i a) ∨
    (∃ i, r = ({ st with awaiting := some i }, none)) := by
  simp only [longDispatchCore] at h
  repeat' split at h
  all_goals try exact Option.noConfusion h
  all_goals injection h with h2
  · exact Or.inl ⟨_, _, h2.symm⟩
  · exact Or.inl ⟨_, _, h2.symm⟩
  · exact Or.inr ⟨_, h2.symm⟩

theorem longDispatch_spec (reg : Registry) (st : ParseState) (arg : Str)
    (r : ParseState × Option PError) (h : longDispatch reg st arg = some r) :
    (∃ i a, r = applyNamed reg st i a) ∨
    (∃ i, r = ({ st with awaiting := some i }, none)) := by
  unfold longDispatch at h
  repeat' split at h
  all_goals first
    | exact longDispatchCore_spec reg st _ r h
    | exact Option.noConfusion h

theorem positionalStep_named_eq (reg : Registry) (st : ParseState) (arg : Str) :
    (positionalStep reg st arg).1.named = st.named := by
  simp only [positionalStep]
  repeat' split
  all_goals rfl

theorem step_frame_named (reg : Registry) (st : ParseState) (arg : Str)
    (st1 : ParseState) (e : Option PError) (h : step reg st arg = (st1, e)) (i : Nat)
    (hp : (nthNamedState st1 i).parsed = false) :
    nthNamedState st1 i = nthNamedState st i := by
  unfold step at h
  split at h
  case h_1 j hA =>
      have h1 : (applyNamed reg { st with awaiting := none } j arg).1 = st1 := by rw [h]
      rw [← h1] at hp ⊢
      exact applyNamed_noTouch reg { st with awaiting := none } j arg i hp
  case h_2 hA =>
      split at h
      case h_1 r hS =>
          rcases shortDispatch_spec reg st arg r hS with ⟨j, a, rfl⟩ | ⟨j, rfl⟩
          · have h1 : (applyNamed reg st j a).1 = st1 := by rw [h]
            rw [← h1] at hp ⊢
            exact applyNamed_noTouch reg st j a i hp
          · have h1 : ({ st with awaiting := some j } : ParseState) = st1 := by
              exact congrArg Prod.fst h
            rw [← h1]
            rfl
      case h_2 hS =>
          split at h
          case h_1 r hL =>
              rcases longDispatch_spec reg st arg r hL with ⟨j, a, rfl⟩ | ⟨j, rfl⟩
              · have h1 : (applyNamed reg st j a).1 = st1 := by rw [h]
                rw [← h1] at hp ⊢
                exact applyNamed_noTouch reg st j a i hp
              · have h1 : ({ st with awaiting := some j } : ParseState) = st1 := by
                  exact congrArg Prod.fst h
                rw [← h1]
                rfl
          case h_2 hL =>
              have h1 : (positionalStep reg st arg).1 = st1 := by rw [h]
              rw [← h1]
              show ((positionalStep reg st arg).1.named).getD i default = nthNamedState st i
              rw [positionalStep_named_eq]
              rfl

theorem positionalStep_noTouch (reg : Registry) (st : ParseState) (arg : Str)
    (st1 : ParseState) (e : Option PError) (h : positionalStep reg st arg = (st1, e)) (i : Nat)
    (hp : (nthPosState st1 i).parsed = false) :
    nthPosState st1 i = nthPosState st i := by
  have hset : ∀ (r : PState), r.parsed = true →
      ((st.pos.set st.cursor r).getD i default).parsed = false →
      (st.pos.set st.cursor r).getD i default = st.pos.getD i default := by
    intro r hr hpf
    rcases getD_set_cases st.pos st.cursor r i default with hc | hc
    · exact hc
    · rw [hc, hr] at hpf
      exact Bool.noConfusion hpf
  simp only [positionalStep] at h
  repeat' split at h
  all_goals injection h with h1 h2
  all_goals subst h1
  all_goals first
    | rfl
    | exact hset _ (parse_sets_parsed _ _ _) hp

theorem step_frame_pos (reg : Registry) (st : ParseState) (arg : Str)
    (st1 : ParseState) (e : Option PError) (h : step reg st arg = (st1, e)) (i : Nat)
    (hp : (nthPosState st1 i).parsed = false) :
    nthPosState st1 i = nthPosState st i := by
  unfold step at h
  split at h
  case h_1 j hA =>
      have h1 : (applyNamed reg { st with awaiting := none } j arg).1 = st1 :=
        congrArg Prod.fst h
      rw [← h1]
      rfl
  case h_2 hA =>
      split at h
      case h_1 r hS =>
          rcases shortDispatch_spec reg st arg r hS with ⟨j, a, rfl⟩ | ⟨j, rfl⟩
          · have h1 : (applyNamed reg st j a).1 = st1 := congrArg Prod.fst h
            rw [← h1]
            rfl
          · have h1 : ({ st with awaiting := some j } : ParseState) = st1 :=
              congrArg Prod.fst h
            rw [← h1]
            rfl
      case h_2 hS =>
          split at h
          case h_1 r hL =>
              rcases longDispatch_spec reg st arg r hL with ⟨j, a, rfl⟩ | ⟨j, rfl⟩
              · have h1 : (applyNamed reg st j a).1 = st1 := congrArg Prod.fst h
                rw [← h1]
                rfl
              · have h1 : ({ st with awaiting := some j } : ParseState) = st1 :=
                  congrArg Prod.fst h
                rw [← h1]
                rfl
          case h_2 hL =>
              exact positionalStep_noTouch reg st arg st1 e h i hp

theorem runTokens_frame_named (reg : Registry) (ts : List Str) :
    ∀ (s : ParseState) (i : Nat),
      (nthNamedState (runTokens reg s ts).1 i).parsed = false →
      nthNamedState (runTokens reg s ts).1 i = nthNamedState s i := by
  induction ts with
  | nil => intro s i hp; rfl
  | cons t ts ih =>
      intro s i hp
      simp only [runTokens] at hp ⊢
      rcases hstep : step reg s t with ⟨st1, e⟩
      rw [hstep] at hp
      cases e with
      | none =>
          have heq := ih st1 i hp
          rw [heq]
          have hp1 : (nthNamedState st1 i).parsed = false := by rw [← heq]; exact hp
          exact step_frame_named reg s t st1 none hstep i hp1
      | some e0 =>
          exact step_frame_named reg s t st1 (some e0) hstep i hp

theorem runTokens_frame_pos (reg : Registry) (ts : List Str) :
    ∀ (s : ParseState) (i : Nat),
      (nthPosState (runTokens reg s ts).1 i).parsed = false →
      nthPosState (runTokens reg s ts).1 i = nthPosState s i := by
  induction ts with
  | nil => intro s i hp; rfl
  | cons t ts ih =>
      intro s i hp
      simp only [runTokens] at hp ⊢
      rcases hstep : step reg s t with ⟨st1, e⟩
      rw [hstep] at hp
      cases e with
      | none =>
          have heq := ih st1 i hp
          rw [heq]
          have hp1 : (nthPosState st1 i).parsed = false := by rw [← heq]; exact hp
          exact step_frame_pos reg s t st1 none hstep i hp1
      | some e0 =>
          exact step_frame_pos reg s t st1 (some e0) hstep i hp

theorem resetStates_getD_cell (l : List PState) (i : Nat) :
    ((resetStates l).getD i default).cell = (l.getD i default).cell := by
  induction l generalizing i with
  | nil => rfl
  | cons x xs ih =>
      cases i with
      | zero => rfl
      | succ i1 =>
          simp only [resetStates, List.map_cons, List.getD_cons_succ]
          exact ih i1

theorem parse_state_eq (reg : Registry) (prior : ParseState) (toks : List Str)
    (st : ParseState) (e : Option PError) (h : parse reg prior toks = (st, e)) :
    st = (runTokens reg (startState prior) toks).1 := by
  simp only [parse] at h
  rcases hrun : runTokens reg (startState prior) toks with ⟨st0, e0⟩
  rw [hrun] at h
  cases e0 with
  | none => injection h with h1 h2; rw [← h1]
  | some e1 => injection h with h1 h2; rw [← h1]

theorem runTokens_ok_append (reg : Registry) (s : ParseState) (pre suf : List Str)
    (s1 : ParseState) (h : runTokens reg s pre = (s1, none)) :
    runTokens reg s (pre ++ suf) = runTokens reg s1 suf := by
  induction pre generalizing s with
  | nil =>
      simp [runTokens] at h
      rw [List.nil_append, h]
  | cons t ts ih =>
      rw [List.cons_append]
      simp only [runTokens] at h ⊢
      rcases hstep : step reg s t with ⟨st1, e⟩
      rw [hstep] at h
      cases e with
      | none => exact ih st1 h
      | some e0 => simp at h

theorem mem_dropLast_or_last {α : Type} (l : List α) (q : α) (hq : q ∈ l) :
    q ∈ l.dropLast ∨ l.getLast? = some q := by
  induction l with
  | nil => cases hq
  | cons x xs ih =>
      cases xs with
      | nil =>
          right
          simp at hq
          simp [hq]
      | cons y ys =>
          rcases List.mem_cons.mp hq with rfl | hmem
          · left
            simp [List.dropLast]
          · rcases ih hmem with hd | hl
            · left
              rw [List.dropLast_cons₂]
              exact List.mem_cons_of_mem x hd
            · right
              rw [List.getLast?_cons_cons]
              exact hl

theorem addPositionalList_ok_shape (ps0 : List Param) (p : Param) (ps1 : List Param)
    (hok : addPositionalList ps0 p = Except.ok ps1) :
    ps1 = ps0 ++ [{ p with index := ps0.length }] ∧
    (∀ lastp, ps0.getLast? = some lastp → lastp.optional = false ∧ lastp.isList = false) := by
  cases hG : ps0.getLast? with
  | none =>
      simp only [addPositionalList, hG] at hok
      injection hok with h1
      refine ⟨h1.symm, ?_⟩
      intro l hl
      cases hl
  | some lastp =>
      simp only [addPositionalList, hG] at hok
      by_cases ho : lastp.optional
      · simp [ho] at hok
      · by_cases hl : lastp.isList
        · simp [ho, hl] at hok
        · simp [ho, hl] at hok
          refine ⟨hok.symm, ?_⟩
          intro l hlast
          injection hlast with h2
          subst h2
          exact ⟨by simpa using ho, by simpa using hl⟩

theorem posReachable_inv (ps : List Param) (h : PosReachable ps) :
    ∀ q ∈ ps.dropLast, q.optional = false ∧ q.isList = false := by
  induction h with
  | base => intro q hq; cases hq
  | add ps0 p ps1 hre hok ih =>
      obtain ⟨hps1, hcheck⟩ := addPositionalList_ok_shape ps0 p ps1 hok
      intro q hq
      rw [hps1, List.dropLast_concat] at hq
      rcases mem_dropLast_or_last ps0 q hq with hd | hlast
      · exact ih q hd
      · exact hcheck q hlast

theorem addPositionalList_fails_iff (ps : List Param) (p : Param) :
    regFails (addPositionalList ps p) = true ↔
    (∃ q, ps.getLast? = some q ∧ (q.optional = true ∨ q.isList = true)) := by
  cases hG : ps.getLast? with
  | none => simp [addPositionalList, hG, regFails]
  | some lastp =>
      by_cases ho : lastp.optional
      · simp [addPositionalList, hG, ho, regFails]
      · by_cases hl : lastp.isList
        · simp [addPositionalList, hG, ho, hl, regFails]
        · simp [addPositionalList, hG, ho, hl, regFails]

theorem strLt_trans {a b c : Str} (hab : strLt a b = true) (hbc : strLt b c = true) :
    strLt a c = true := by
  induction a generalizing b c with
  | nil =>
      cases c with
      | nil =>
          cases b with
          | nil => simp [strLt] at hab
          | cons y ys => simp [strLt] at hbc
      | cons z zs => simp [strLt]
  | cons x xs ih =>
      cases b with
      | nil => simp [strLt] at hab
      | cons y ys =>
          cases c with
          | nil => simp [strLt] at hbc
          | cons z zs =>
              simp only [strLt] at hab hbc ⊢
              by_cases h1 : x.toNat < y.toNat
              · by_cases h2 : y.toNat < z.toNat
                · rw [if_pos (Nat.lt_trans h1 h2)]
                · rw [if_neg h2] at hbc
                  by_cases h3 : z.toNat < y.toNat
                  · rw [if_pos h3] at hbc
                    exact Bool.noConfusion hbc
                  · rw [if_pos (by omega : x.toNat < z.toNat)]
              · by_cases h4 : y.toNat < x.toNat
                · rw [if_neg h1, if_pos h4] at hab
                  exact Bool.noConfusion hab
                · rw [if_neg h1, if_neg h4] at hab
                  by_cases h2 : y.toNat < z.toNat
                  · rw [if_pos (by omega : x.toNat < z.toNat)]
                  · by_cases h5 : z.toNat < y.toNat
                    · rw [if_neg h2, if_pos h5] at hbc
                      exact Bool.noConfusion hbc
                    · rw [if_neg h2, if_neg h5] at hbc
                      rw [if_neg (by omega : ¬ x.toNat < z.toNat),
                          if_neg (by omega : ¬ z.toNat < x.toNat)]
                      exact ih hab hbc

theorem mem_mapInsert (k : Str) (v : Int) (m : List (Str × Int)) (a : Str × Int)
    (h : a ∈ mapInsert k v m) : a = (k, v) ∨ a ∈ m := by
  induction m with
  | nil => simpa [mapInsert] using h
  | cons kv rest ih =>
      simp only [mapInsert] at h
      split at h
      · rcases List.mem_cons.mp h with rfl | h2
        · exact Or.inl rfl
        · exact Or.inr h2
      · split at h
        · rcases List.mem_cons.mp h with rfl | h2
          · exact Or.inr (List.mem_cons_self _ _)
          · rcases ih h2 with h3 | h3
            · exact Or.inl h3
            · exact Or.inr (List.mem_cons_of_mem _ h3)
        · exact Or.inr h

theorem pairwise_mapInsert (k : Str) (v : Int) (m : List (Str × Int))
    (h : List.Pairwise (fun a b => strLt a.1 b.1 = true) m) :
    List.Pairwise (fun a b => strLt a.1 b.1 = true) (mapInsert k v m) := by
  induction m with
  | nil => simp [mapInsert]
  | cons kv rest ih =>
      rcases List.pairwise_cons.mp h with ⟨hkv, hrest⟩
      simp only [mapInsert]
      split
      case isTrue hlt =>
          refine List.pairwise_cons.mpr ⟨?_, h⟩
          intro b hb
          rcases List.mem_cons.mp hb with rfl | hb2
          · exact hlt
          · exact strLt_trans hlt (hkv b hb2)
      case isFalse hge =>
          split
          case isTrue hgt =>
              refine List.pairwise_cons.mpr ⟨?_, ih hrest⟩
              intro b hb
              rcases mem_mapInsert k v rest b hb with rfl | hb2
              · exact hgt
              · exact hkv b hb2
          case isFalse => exact h

theorem pairwise_mapOfList (l : List (Str × Int)) :
    List.Pairwise (fun a b => strLt a.1 b.1 = true) (mapOfList l) := by
  have haux : ∀ (l2 : List (Str × Int)) (m : List (Str × Int)),
      List.Pairwise (fun a b => strLt a.1 b.1 = true) m →
      List.Pairwise (fun a b => strLt a.1 b.1 = true)
        (l2.foldl (fun m2 kv => mapInsert kv.1 kv.2 m2) m) := by
    intro l2
    induction l2 with
    | nil => intro m hm; exact hm
    | cons kv rest ih =>
        intro m hm
        exact ih (mapInsert kv.1 kv.2 m) (pairwise_mapInsert kv.1 kv.2 m hm)
  exact haux l [] List.Pairwise.nil

theorem leadsWith_refl (s : Str) : leadsWith s s = true := by
  induction s with
  | nil => rfl
  | cons a as ih => simp [leadsWith, ih]

theorem strHasSub_self (s : Str) : strHasSub s s = true := by
  cases s with
  | nil => rfl
  | cons a as => simp [strHasSub, leadsWith_refl]

theorem strHasSub_append (pre s n : Str) (h : strHasSub s n = true) :
    strHasSub (pre ++ s) n = true := by
  induction pre with
  | nil => simpa
  | cons a as ih => simp [strHasSub, ih]

/-! Claim theorems. -/

/-- Claim C1: for the registry with required text named parameter
`name`/short `n`, optional flag `force`/short `f` and required positional
`file`, parsing `["--name","Alice","-f","report.txt"]` succeeds and binds
`name="Alice"`, `force=true`, `file="report.txt"`; and parsing
`["report.txt","--name","Bob"]` succeeds and binds `name="Bob"`,
`file="report.txt"`, leaving `force` at its untouched default `false`. -/
theorem c1_scenario_a_b :
    ((parse regAB zeroAB
        (["--name".toList, "Alice".toList, "-f".toList, "report.txt".toList])).2 = none ∧
     nthNamedState (parse regAB zeroAB
        (["--name".toList, "Alice".toList, "-f".toList, "report.txt".toList])).1 0 =
       ⟨true, Cell.scalar (Value.str ("Alice".toList))⟩ ∧
     nthNamedState (parse regAB zeroAB
        (["--name".toList, "Alice".toList, "-f".toList, "report.txt".toList])).1 1 =
       ⟨true, Cell.scalar (Value.bool true)⟩ ∧
     nthPosState (parse regAB zeroAB
        (["--name".toList, "Alice".toList, "-f".toList, "report.txt".toList])).1 0 =
       ⟨true, Cell.scalar (Value.str ("report.txt".toList))⟩) ∧
    ((parse regAB zeroAB
        (["report.txt".toList, "--name".toList, "Bob".toList])).2 = none ∧
     nthNamedState (parse regAB zeroAB
        (["report.txt".toList, "--name".toList, "Bob".toList])).1 0 =
       ⟨true, Cell.scalar (Value.str ("Bob".toList))⟩ ∧
     nthNamedState (parse regAB zeroAB
        (["report.txt".toList, "--name".toList, "Bob".toList])).1 1 =
       ⟨false, Cell.scalar (Value.bool false)⟩ ∧
     nthPosState (parse regAB zeroAB
        (["report.txt".toList, "--name".toList, "Bob".toList])).1 0 =
       ⟨true, Cell.scalar (Value.str ("report.txt".toList))⟩) := by decide

/-- Claim C2 fails on the code: with a registry holding one required
positional `file` and no named parameters, the unknown-short token `-x`
does not raise any error — the scan lets it fall through to positional
matching and the invocation succeeds with `file="-x"`. -/
theorem c2_counterexample :
    (parse posOnlyReg posOnlyZero [("-x".toList)]).2 = none ∧
    nthPosState (parse posOnlyReg posOnlyZero [("-x".toList)]).1 0 =
      ⟨true, Cell.scalar (Value.str ("-x".toList))⟩ := by decide

/-- Claim C3 fails on the code: repeating the scalar named parameter
`name` does not overwrite — the second `--name` is skipped by the
`!parsed_ || isList()` guard, falls through to positional matching, and
with no positional slot raises `Unexpected argument`; the first bound
value `"A"` stays. -/
theorem c3_counterexample :
    (parse regNameOnly zeroNameOnly
        (["--name".toList, "A".toList, "--name".toList, "B".toList])).2 =
      some (PError.unexpectedArg ("--name".toList)) ∧
    nthNamedState (parse regNameOnly zeroNameOnly
        (["--name".toList, "A".toList, "--name".toList, "B".toList])).1 0 =
      ⟨true, Cell.scalar (Value.str ("A".toList))⟩ := by decide

/-- Claim C6 fails on the code: a token sequence ending while an option
still awaits its value produces no distinct boundary error.  A required
dangling option surfaces as the ordinary `Missing argument` completeness
error, and an optional dangling option makes the invocation succeed
silently. -/
theorem c6_counterexample :
    (parse regNameOnly zeroNameOnly [("--name".toList)]).2 =
      some (PError.missingArg nameParam) ∧
    (parse regOptOnly zeroOptOnly [("--opt".toList)]).2 = none := by decide

/-- Claim C7 fails on the code: the token `-abc` (single dash, length
greater than two, second character not a dash) is not rejected — it
matches neither option block, falls through to positional matching, and
is accepted as the value of the positional `file`. -/
theorem c7_counterexample :
    (parse posOnlyReg posOnlyZero [("-abc".toList)]).2 = none ∧
    nthPosState (parse posOnlyReg posOnlyZero [("-abc".toList)]).1 0 =
      ⟨true, Cell.scalar (Value.str ("-abc".toList))⟩ := by decide

/-- Claim C10 fails on the code as stated: when conversion of `"12x"`
for the integer list `nums` fails (trailing unconverted characters), the
vector receives the partially-converted element `12` — not a
default-constructed element — before the error propagates. -/
theorem c10_counterexample :
    (parse regNums priorNums (["--nums".toList, "12x".toList])).2 =
      some (PError.badArg numsParam ("12x".toList)) ∧
    nthNamedState (parse regNums priorNums
        (["--nums".toList, "12x".toList])).1 0 = ⟨true, Cell.vec [Value.int 12]⟩ ∧
    ¬ Value.int 12 = defaultValue Conv.intC := by decide

/-- Claim C2, amended: a token `-x` whose character is not a registered
short name, and a token `--name` or `--name=value` whose long name is not
registered, are not resolved as named options; in `Scanning` state they
fall through to positional matching, where they are consumed as a
positional value when a slot remains and raise the `Unexpected argument`
error when the positional cursor is past the end. -/
theorem c2_amended_fallthrough (reg : Registry) (st : ParseState) (h : st.awaiting = none) :
    (∀ c : Char, findShortIdx reg c = none →
        step reg st ([ '-', c]) = positionalStep reg st ([ '-', c])) ∧
    (∀ a rest, (a :: rest).contains '=' = false → findLongIdx reg (a :: rest) = none →
        step reg st ('-' :: '-' :: a :: rest) = positionalStep reg st ('-' :: '-' :: a :: rest)) ∧
    (∀ nm value, nm.contains '=' = false → findLongIdx reg nm = none →
        step reg st ('-' :: '-' :: nm ++ '=' :: value) =
          positionalStep reg st ('-' :: '-' :: nm ++ '=' :: value)) ∧
    (∀ t, reg.positionalParams.length ≤ st.cursor →
        positionalStep reg st t = (st, some (PError.unexpectedArg t))) := by
  refine ⟨?_, ?_, ?_, ?_⟩
  · intro c hc
    simp [step, h, shortDispatch, longDispatch, hc]
  · intro a rest hne hl
    have hne2 : ¬ ('=' = a ∨ '=' ∈ rest) := by simpa using hne
    simp [step, h, shortDispatch, longDispatch, longDispatchCore, hne2, hl]
  · intro nm value hnm hlook
    have hcore : longDispatchCore reg st (nm ++ '=' :: value) = none := by
      have hc2 : ('=' ∈ nm ++ '=' :: value) := by simp
      simp [longDispatchCore, hc2, takeWhile_neq_append nm value hnm, hlook]
    cases nm with
    | nil =>
        simp only [List.nil_append] at hcore ⊢
        simp [step, h, shortDispatch, longDispatch, hcore]
    | cons m ms =>
        simp only [List.cons_append] at hcore ⊢
        simp [step, h, shortDispatch, longDispatch, hcore]
  · intro t ht
    simp [positionalStep, ht]

theorem c2_amended_witness :
    step posOnlyReg posOnlyZero ([ '-', 'x']) =
      positionalStep posOnlyReg posOnlyZero ([ '-', 'x']) :=
  (c2_amended_fallthrough posOnlyReg posOnlyZero (by decide)).1 'x' (by decide)

/-- Claim C3, amended: a second occurrence of an already-matched Scalar
named parameter is not treated as a named option and does not overwrite
the bound value.  The `!parsed_ || isList()` guard makes the token fall
through to positional matching (consumed as a positional value if a slot
remains, otherwise the `Unexpected argument` error is raised). -/
theorem c3_amended_repeated_scalar (reg : Registry) (st : ParseState) (h : st.awaiting = none) :
    (∀ c i, findShortIdx reg c = some i → (nthNamedState st i).parsed = true →
        (nthNamed reg i).isList = false →
        step reg st ([ '-', c]) = positionalStep reg st ([ '-', c])) ∧
    (∀ a rest i, (a :: rest).contains '=' = false → findLongIdx reg (a :: rest) = some i →
        (nthNamedState st i).parsed = true → (nthNamed reg i).isList = false →
        step reg st ('-' :: '-' :: a :: rest) = positionalStep reg st ('-' :: '-' :: a :: rest)) ∧
    (∀ nm value i, nm.contains '=' = false → findLongIdx reg nm = some i →
        (nthNamedState st i).parsed = true → (nthNamed reg i).isList = false →
        step reg st ('-' :: '-' :: nm ++ '=' :: value) =
          positionalStep reg st ('-' :: '-' :: nm ++ '=' :: value)) := by
  refine ⟨?_, ?_, ?_⟩
  · intro c i hc hp hl
    simp [step, h, shortDispatch, longDispatch, hc, hp, hl]
  · intro a rest i hne hlong hp hl
    have hne2 : ¬ ('=' = a ∨ '=' ∈ rest) := by simpa using hne
    simp [step, h, shortDispatch, longDispatch, longDispatchCore, hne2, hlong, hp, hl]
  · intro nm value i hnm hlook hp hl
    have hcore : longDispatchCore reg st (nm ++ '=' :: value) = none := by
      have hc2 : ('=' ∈ nm ++ '=' :: value) := by simp
      simp [longDispatchCore, hc2, takeWhile_neq_append nm value hnm, hlook, hp, hl]
    cases nm with
    | nil =>
        simp only [List.nil_append] at hcore ⊢
        simp [step, h, shortDispatch, longDispatch, hcore]
    | cons m ms =>
        simp only [List.cons_append] at hcore ⊢
        simp [step, h, shortDispatch, longDispatch, hcore]

theorem c3_amended_witness :
    step regNameOnly stNameParsed ('-' :: '-' :: 'n' :: ("ame".toList)) =
      positionalStep regNameOnly stNameParsed ('-' :: '-' :: 'n' :: ("ame".toList)) :=
  (c3_amended_repeated_scalar regNameOnly stNameParsed (by decide)).2.1 'n' ("ame".toList) 0
    (by decide) (by decide) (by decide) (by decide)

/-- Claim C4: across repeated invocations on one registry, no list is
cleared eagerly at invocation start (the reset keeps every bound cell);
a list parameter's vector is cleared at its first touch of the new
invocation and then appends each converted value in encounter order; and
a parameter the new invocation never touches (its transient flag is
still clear at the end) keeps its cell exactly as the prior invocation
left it.  The closing conjuncts run the two-invocation list scenario
end to end. -/
theorem c4_list_reinvocation (reg : Registry) :
    (∀ (prior : ParseState) (i : Nat),
        (nthNamedState (startState prior) i).cell = (nthNamedState prior i).cell ∧
        (nthPosState (startState prior) i).cell = (nthPosState prior i).cell) ∧
    (∀ (p : Param) (s : PState) (arg : Str), p.isList = true → s.parsed = false →
        Param.parse p s arg =
          (⟨true, Cell.vec [(runConv p.conv arg (defaultValue p.conv)).1]⟩,
           (runConv p.conv arg (defaultValue p.conv)).2)) ∧
    (∀ (p : Param) (s : PState) (arg : Str) (vs : List Value),
        p.isList = true → s.parsed = true → s.cell = Cell.vec vs →
        Param.parse p s arg =
          (⟨true, Cell.vec (vs ++ [(runConv p.conv arg (defaultValue p.conv)).1])⟩,
           (runConv p.conv arg (defaultValue p.conv)).2)) ∧
    (∀ (prior : ParseState) (toks : List Str) (st : ParseState) (e : Option PError) (i : Nat),
        parse reg prior toks = (st, e) →
        ((nthNamedState st i).parsed = false →
            (nthNamedState st i).cell = (nthNamedState prior i).cell) ∧
        ((nthPosState st i).parsed = false →
            (nthPosState st i).cell = (nthPosState prior i).cell)) ∧
    ((parse regLists zeroLists toksLists1).2 = none ∧
     nthNamedState (parse regLists zeroLists toksLists1).1 0 =
       ⟨true, Cell.vec [Value.int 1, Value.int 2]⟩ ∧
     nthNamedState (parse regLists zeroLists toksLists1).1 1 =
       ⟨true, Cell.vec [Value.str ("x".toList)]⟩ ∧
     (parse regLists (parse regLists zeroLists toksLists1).1 toksLists2).2 = none ∧
     nthNamedState (parse regLists (parse regLists zeroLists toksLists1).1 toksLists2).1 0 =
       ⟨true, Cell.vec [Value.int 7]⟩ ∧
     nthNamedState (parse regLists (parse regLists zeroLists toksLists1).1 toksLists2).1 1 =
       ⟨false, Cell.vec [Value.str ("x".toList)]⟩) := by
  refine ⟨?_, ?_, ?_, ?_, ?_⟩
  · intro prior i
    exact ⟨resetStates_getD_cell _ _, resetStates_getD_cell _ _⟩
  · intro p s arg hl hparsed
    rcases hc : s.cell with v | vs <;> simp [Param.parse, hl, hparsed, hc]
  · intro p s arg vs hl hparsed hcell
    simp [Param.parse, hl, hparsed, hcell]
  · intro prior toks st e i hpe
    have hst := parse_state_eq reg prior toks st e hpe
    constructor
    · intro hp
      rw [hst] at hp ⊢
      rw [runTokens_frame_named reg toks (startState prior) i hp]
      exact resetStates_getD_cell _ _
    · intro hp
      rw [hst] at hp ⊢
      rw [runTokens_frame_pos reg toks (startState prior) i hp]
      exact resetStates_getD_cell _ _
  · decide

theorem c4_witness :
    Param.parse numsParam ⟨false, Cell.vec [Value.int 9]⟩ ("5".toList) =
      (⟨true, Cell.vec [(runConv numsParam.conv ("5".toList) (defaultValue numsParam.conv)).1]⟩,
       (runConv numsParam.conv ("5".toList) (defaultValue numsParam.conv)).2) ∧
    (nthNamedState (parse regLists zeroLists toksLists2).1 1).cell =
      (nthNamedState zeroLists 1).cell :=
  ⟨(c4_list_reinvocation regLists).2.1 numsParam ⟨false, Cell.vec [Value.int 9]⟩
      ("5".toList) rfl rfl,
   ((c4_list_reinvocation regLists).2.2.2.1 zeroLists toksLists2
      (parse regLists zeroLists toksLists2).1 (parse regLists zeroLists toksLists2).2 1
      rfl).1 (by decide)⟩

/-- Claim C5: for a positional-descriptor sequence reachable through
successful registrations, a further `addPositional` call fails — both
failure sites being the positional-order violation — exactly when some
already-registered positional descriptor is Optional or has List arity;
in particular `[Required, Optional]` and `[Scalar, List]` register
successfully while the second call of `[Optional, Required]` and of
`[List, Scalar]` fails. -/
theorem c5_positional_order (ps : List Param) (p : Param) (h : PosReachable ps) :
    (regFails (addPositionalList ps p) = true ↔
      ∃ q ∈ ps, q.optional = true ∨ q.isList = true) ∧
    regFails (addPos2 posReq posOpt) = false ∧
    regFails (addPos2 posOpt posReq) = true ∧
    regFails (addPos2 posScalar posList) = false ∧
    regFails (addPos2 posList posScalar) = true := by
  refine ⟨?_, by decide, by decide, by decide, by decide⟩
  rw [addPositionalList_fails_iff]
  constructor
  · rintro ⟨q, hG, hq⟩
    obtain ⟨hne, heq⟩ := List.mem_getLast?_eq_getLast (Option.mem_def.mpr hG)
    refine ⟨q, ?_, hq⟩
    rw [heq]
    exact List.getLast_mem hne
  · rintro ⟨q, hmem, hq⟩
    rcases mem_dropLast_or_last ps q hmem with hd | hlast
    · have hinv := posReachable_inv ps h q hd
      rcases hq with hq | hq
      · rw [hinv.1] at hq; cases hq
      · rw [hinv.2] at hq; cases hq
    · exact ⟨q, hlast, hq⟩

theorem c5_witness :
    regFails (addPositionalList [posOpt] posReq) = true :=
  ((c5_positional_order [posOpt] posReq
      (PosReachable.add [] posOpt [posOpt] PosReachable.base rfl)).1).mpr
    ⟨posOpt, by decide, by decide⟩

/-- Claim C6, amended: ending the scan in `AwaitingValueFor` raises no
distinct boundary error.  After a loop that completes without throwing,
the invocation's outcome is exactly the ordinary end-of-scan
completeness check, which never reads the pending-option state: a
required dangling option surfaces as plain `Missing argument`, an
optional one is silently ignored. -/
theorem c6_amended_no_dangling (reg : Registry) (prior : ParseState) (toks : List Str)
    (st : ParseState) (h : runTokens reg (startState prior) toks = (st, none)) :
    parse reg prior toks = (st, checkMissing reg st) ∧
    (∀ a, checkMissing reg { st with awaiting := a } = checkMissing reg st) := by
  constructor
  · simp [parse, h]
  · intro a
    rfl

theorem c6_amended_witness :
    parse regOptOnly zeroOptOnly [("--opt".toList)] =
      (stDangling, checkMissing regOptOnly stDangling) :=
  (c6_amended_no_dangling regOptOnly zeroOptOnly [("--opt".toList)] stDangling (by decide)).1

/-- Claim C7, amended: a token beginning with a single dash, longer than
two characters and with a non-dash second character (such as `-abc`) is
not recognized as a named option and is not a structural error either:
in `Scanning` state it falls through to positional matching, where it is
consumed as a positional value when a slot remains and raises the
`Unexpected argument` error otherwise. -/
theorem c7_amended_single_dash (reg : Registry) (st : ParseState) (h : st.awaiting = none) :
    ∀ c rest, ¬ c = '-' → rest ≠ [] →
      step reg st ('-' :: c :: rest) = positionalStep reg st ('-' :: c :: rest) := by
  intro c rest hc hrest
  obtain ⟨d, rest1, rfl⟩ := List.exists_cons_of_ne_nil hrest
  simp [step, h, shortDispatch, longDispatch, hc]

theorem c7_amended_witness :
    step posOnlyReg posOnlyZero ('-' :: 'a' :: ("bc".toList)) =
      positionalStep posOnlyReg posOnlyZero ('-' :: 'a' :: ("bc".toList)) :=
  c7_amended_single_dash posOnlyReg posOnlyZero (by decide) 'a' ("bc".toList)
    (by decide) (by decide)

/-- Claim C8: a token with no newline that is absent from an enumerated
converter's map fails conversion leaving the stored value untouched; the
map built from an initializer list is sorted by `strLt`; the resulting
`Bad argument` message contains the comma-joined valid literal set; and
for `level` mapped low→0, high→1 the input `["--level","mid"]` raises
that error with a diagnostic containing `"high, low"`. -/
theorem c8_enum_bad_value (m : List (Str × Int)) (tok : Str) (old : Value) (p : Param)
    (hnl : tok.contains '\n' = false)
    (hlook : assocLookup (mapOfList m) tok = none)
    (hc : p.conv = Conv.enumC (mapOfList m))
    (hvv : getValidValues p.conv ≠ []) :
    runConv p.conv tok old = (old, false) ∧
    List.Pairwise (fun a b => strLt a.1 b.1 = true) (mapOfList m) ∧
    strHasSub (render (PError.badArg p tok)) (getValidValues p.conv) = true ∧
    (parse regLevel zeroLevel (["--level".toList, "mid".toList])).2 =
      some (PError.badArg levelParam ("mid".toList)) ∧
    strHasSub (render (PError.badArg levelParam ("mid".toList))) ("high, low".toList) = true := by
  refine ⟨?_, pairwise_mapOfList m, ?_, by decide, by decide⟩
  · rw [hc]
    simp only [runConv, getlineModel]
    rw [takeWhile_no_newline tok hnl, hlook]
  · simp only [render]
    obtain ⟨k, ks, hks⟩ := List.exists_cons_of_ne_nil hvv
    rw [hks]
    by_cases hidx : p.index ≠ 0
    · rw [if_pos hidx, if_neg (by simp : ¬ ((k :: ks).isEmpty = true))]
      exact strHasSub_append _ _ _ (strHasSub_append _ _ _ (strHasSub_self _))
    · rw [if_neg hidx, if_neg (by simp : ¬ ((k :: ks).isEmpty = true))]
      exact strHasSub_append _ _ _ (strHasSub_append _ _ _ (strHasSub_self _))

theorem c8_witness :
    runConv levelParam.conv ("mid".toList) (Value.int 0) = (Value.int 0, false) :=
  (c8_enum_bad_value [("low".toList, 0), ("high".toList, 1)] ("mid".toList) (Value.int 0)
      levelParam (by decide) (by decide) rfl (by decide)).1

/-- Claim C9: a failing invocation performs no rollback.  If a prefix of
the token sequence is processed without error reaching state `s1`, and
the remaining tokens fail from `s1`, the invocation returns exactly the
state reached when the error was thrown — every value bound while
processing the prefix is still in place. -/
theorem c9_no_rollback (reg : Registry) (prior : ParseState) (pre suf : List Str)
    (s1 s2 : ParseState) (e : PError)
    (h1 : runTokens reg (startState prior) pre = (s1, none))
    (h2 : runTokens reg s1 suf = (s2, some e)) :
    parse reg prior (pre ++ suf) = (s2, some e) := by
  have happ := runTokens_ok_append reg (startState prior) pre suf s1 h1
  simp [parse, happ, h2]

theorem c9_witness :
    parse regC9 zeroC9 (toksPre ++ toksSuf) =
      (c9FinalState, some (PError.badArg numParam ("xyz".toList))) :=
  c9_no_rollback regC9 zeroC9 toksPre toksSuf c9MidState c9FinalState
    (PError.badArg numParam ("xyz".toList)) (by decide) (by decide)

/-- Claim C10, amended: when conversion of a token for a List parameter
fails, the caller-owned vector still receives exactly one appended
element — the converter's output value, which is the default-constructed
value when the converter consumed nothing (for instance an integer token
with no digits), but the partially-converted value when trailing
characters remain — after being cleared if this was the parameter's
first touch this invocation; the parameter is marked matched, and
`parseArg` then reports `Bad argument`, leaving the updated storage in
place. -/
theorem c10_amended_list_append (p : Param) (s : PState) (arg : Str)
    (hl : p.isList = true)
    (hfail : (runConv p.conv arg (defaultValue p.conv)).2 = false) :
    (Param.parse p s arg).1.parsed = true ∧
    (Param.parse p s arg).1.cell =
      Cell.vec ((if s.parsed then cellList s.cell else []) ++
        [(runConv p.conv arg (defaultValue p.conv)).1]) ∧
    (Param.parse p s arg).2 = false ∧
    (∀ (reg : Registry) (st : ParseState) (i : Nat),
        nthNamed reg i = p → nthNamedState st i = s →
        applyNamed reg st i arg =
          ({ st with named := st.named.set i (Param.parse p s arg).1 },
           some (PError.badArg p arg))) ∧
    (p.conv = Conv.intC → (readInt arg).1 = none →
        (runConv p.conv arg (defaultValue p.conv)).1 = defaultValue p.conv) := by
  have h3 : (Param.parse p s arg).2 = false := by
    simp [Param.parse, hl, hfail]
  refine ⟨parse_sets_parsed p s arg, ?_, h3, ?_, ?_⟩
  · rcases hc : s.cell with v | vs <;> by_cases hp : s.parsed <;>
      simp [Param.parse, hl, hc, hp, cellList]
  · intro reg st i hpn hsn
    simp only [applyNamed, hpn, hsn, h3]
    simp
  · intro hconv hread
    rw [hconv]
    rcases hr : readInt arg with ⟨v, rest⟩
    rw [hr] at hread
    simp only at hread
    subst hread
    simp [runConv, defaultValue, hr]

theorem c10_witness :
    (Param.parse numsParam ⟨false, Cell.vec [Value.int 7]⟩ ("12x".toList)).1.parsed = true ∧
    (Param.parse numsParam ⟨false, Cell.vec [Value.int 7]⟩ ("12x".toList)).2 = false :=
  ⟨(c10_amended_list_append numsParam ⟨false, Cell.vec [Value.int 7]⟩ ("12x".toList)
      rfl (by decide)).1,
   (c10_amended_list_append numsParam ⟨false, Cell.vec [Value.int 7]⟩ ("12x".toList)
      rfl (by decide)).2.2.1⟩
